import Mathlib

/-!
# Verification of the autokomplete substring-autocomplete index

This file shallowly embeds the two JavaScript source variants of the
autokomplete library (`src/autokomplete.js`, called `AK` below, and
`src/unnamed/part_000`, called `P0` below) and settles the frozen claims
about the natural-language specification against them.

Modelling conventions, used throughout:

* A JavaScript number-or-`undefined` is `Option Nat` (`none` = `undefined`);
  reading a JS array out of range yields `none`.
* JS strings are lists of UTF-16 code units (`List Nat`); `[...s]` iteration
  groups a high/low surrogate pair into one element; `s[i]` and
  `s.charCodeAt(i)` address single code units.
* A JS array used as a bucket table (`buckets[value].push(x)`) is an
  association list sorted by key; `forEach` visits keys in ascending order
  and skips the non-index property that `buckets[undefined] = ...` creates.
* Unbounded JS recursion/loops are embedded with an explicit fuel argument
  whose start value is justified, at each definition, by the bound on the
  actual recursion depth; this keeps every definition executable by `decide`.
-/

namespace JS

/-- A JavaScript value that is either a number or `undefined`. -/
abbrev JNum := Option Nat

/-- Wrap a plain number as a JS number. -/
def num (n : Nat) : JNum := some n

/-- Strict equality `===` between numbers-or-`undefined`
(`undefined === undefined` is `true`). -/
def jsEq : JNum → JNum → Bool
  | some a, some b => a == b
  | none, none => true
  | _, _ => false

/-- `<` between numbers-or-`undefined`: any comparison involving `undefined`
goes through `NaN` and yields `false`. -/
def jsLt : JNum → JNum → Bool
  | some a, some b => decide (a < b)
  | _, _ => false

/-- `array[i]` on an array that may itself hold `undefined` entries:
out of range gives `undefined`, a hole gives `undefined`. -/
def read (l : List JNum) (i : Nat) : JNum := (l.get? i).join

/-- `array[i]` at a JS (possibly `undefined`/`NaN`) index. -/
def readAt (l : List JNum) (i : JNum) : JNum :=
  match i with
  | some i => read l i
  | none => none

/-- `array[i] || 0`: `undefined` (and `0` itself) collapse to `0`. -/
def readD0 (l : List JNum) (i : Nat) : Nat := (read l i).getD 0

/-- `undefined + k` stays `NaN`/`undefined`; `n + k` is ordinary addition. -/
def jsAdd (i : JNum) (k : Nat) : JNum := i.map (· + k)

/-- A JS array keyed by numbers and holding one list per key, as produced by
`buckets[key] ||= []; buckets[key].push(x)`: an association list kept sorted
by key. `forEach` over it visits keys in ascending order. -/
abbrev Buckets (α : Type) := List (Nat × List α)

/-- `buckets[k].push(x)`, creating the bucket when absent. -/
def bucketAdd {α : Type} : Buckets α → Nat → α → Buckets α
  | [], k, x => [(k, [x])]
  | (k', xs) :: rest, k, x =>
    if k < k' then (k, [x]) :: (k', xs) :: rest
    else if k = k' then (k', xs ++ [x]) :: rest
    else (k', xs) :: bucketAdd rest k x

/-- `buckets.forEach(bucket => bucket.forEach(x => out.push(x)))`. -/
def bucketsFlatten {α : Type} (bs : Buckets α) : List α := (bs.map Prod.snd).flatten

/-- Distribute a list into buckets by a total key (`foldl` of pushes,
preserving arrival order inside each bucket). -/
def distribute {α : Type} (key : α → Nat) (l : List α) : Buckets α :=
  l.foldl (fun bs x => bucketAdd bs (key x) x) []

/-- Distribute by a key that may be `undefined`: `buckets[undefined] = ...`
creates a non-index property that the later `forEach` never visits, so an
element with an `undefined` key silently disappears from the sort. -/
def distributeOpt {α : Type} (key : α → JNum) (l : List α) : Buckets α :=
  l.foldl
    (fun bs x =>
      match key x with
      | some k => bucketAdd bs k x
      | none => bs)
    []

/-- A plain JS object used as a map from numbers to numbers
(`ranks[key] = value`); later writes overwrite earlier ones. -/
abbrev NumMap := List (Nat × Nat)

/-- `map[k] = v`. -/
def mapSet (m : NumMap) (k v : Nat) : NumMap :=
  match m with
  | [] => [(k, v)]
  | (k', v') :: rest => if k = k' then (k, v) :: rest else (k', v') :: mapSet rest k v

/-- `map[k]` as a number-or-`undefined`. -/
def mapGet (m : NumMap) (k : Nat) : JNum :=
  match m with
  | [] => none
  | (k', v') :: rest => if k = k' then some v' else mapGet rest k

/-- `map[k] || 0`. -/
def mapGetD0 (m : NumMap) (k : Nat) : Nat := (mapGet m k).getD 0

/-- `arr[i] = v` on a JS array, filling any skipped positions with holes
(`undefined`), as sparse assignment does. -/
def setSparse (l : List JNum) (i : Nat) (v : Nat) : List JNum :=
  match l, i with
  | [], 0 => [some v]
  | [], i + 1 => none :: setSparse [] i v
  | _ :: rest, 0 => some v :: rest
  | x :: rest, i + 1 => x :: setSparse rest i v

/-- `list.slice(start, end)` with JS index normalisation
(negative indices count from the end and clamp at 0). -/
def jsSlice {α : Type} (l : List α) (s e : Int) : List α :=
  let n : Int := l.length
  let norm : Int → Nat := fun x => (if x < 0 then max (n + x) 0 else min x n).toNat
  (l.take (norm e)).drop (norm s)

end JS

namespace JS

/-! ## UTF-16 strings -/

/-- First unit of a surrogate pair: `0xD800 ≤ u < 0xDC00`. -/
def isHighSurrogate (u : Nat) : Bool := 0xD800 ≤ u && u < 0xDC00

/-- Second unit of a surrogate pair: `0xDC00 ≤ u < 0xE000`. -/
def isLowSurrogate (u : Nat) : Bool := 0xDC00 ≤ u && u < 0xE000

/-- `[...s]`: iterate a UTF-16 unit list by code points, grouping a high
surrogate followed by a low surrogate into a single two-unit element. -/
def cpGroup : List Nat → List (List Nat)
  | [] => []
  | [u] => [[u]]
  | u :: l :: rest =>
    if isHighSurrogate u && isLowSurrogate l then [u, l] :: cpGroup rest
    else [u] :: cpGroup (l :: rest)

/-- Single-code-point `toLowerCase`, restricted to the mappings relevant to
the record texts used in this development: ASCII letters fold by `+32` and
every other code point (including astral pairs, which JS leaves unchanged)
maps to itself. -/
def cpToLower (c : List Nat) : List Nat :=
  match c with
  | [u] => if 65 ≤ u && u ≤ 90 then [u + 32] else [u]
  | other => other

/-- `s.toLowerCase()` on a UTF-16 unit list, per code point. -/
def toLower (s : List Nat) : List Nat := ((cpGroup s).map cpToLower).flatten

/-- `[...s].length`: the number of code points of a string. -/
def cpCount (s : List Nat) : Nat := (cpGroup s).length

end JS

/-! ## Records as the suffix-array pipeline sees them

The pipeline only ever touches the `string` attribute of a record and hands
records back verbatim, so a record is embedded as its `string` attribute
(possibly absent, for the error-handling claim) plus an opaque payload tag
distinguishing records with equal texts. -/

structure JEntry where
  /-- The `string` attribute, as UTF-16 units; `none` when the record lacks it. -/
  str? : Option (List Nat)
  /-- Opaque stand-in for the rest of the record. -/
  tag : Nat
deriving DecidableEq, Repr

/-- `row.string` once construction has validated presence (construction throws
before any consumer runs when the attribute is missing). -/
def JEntry.str (e : JEntry) : List Nat := e.str?.getD []

/-- The only construction failure: a record without a `string` attribute
(surfaced in JS as the `TypeError` thrown when destructuring/iterating
`undefined`; the specification's taxonomy names it `InvalidInput`). -/
inductive BuildError where
  | invalidInput
deriving DecidableEq, Repr

/-! ## The DC3 suffix-array builder, `part_000` variant (`P0`) -/

/-- One element of the `m12` work list: its position in the `m12` list
(`pos`/`originalLoc`) and the stream position it denotes (`index`). -/
structure Obj12 where
  pos : Nat
  index : Nat
deriving DecidableEq, Repr

/-- Accumulated state of the ranking pass of `radixSortM12`. -/
structure RankSt where
  rankedM12 : List JS.JNum
  sortedM12 : List Nat
  m12Ranks : JS.NumMap
  duplicatesFound : Bool
  currentRank : Nat
deriving Repr

/-- Result record of `radixSortM12` (both variants). -/
structure M12Sort where
  duplicatesFound : Bool
  rankedM12 : List JS.JNum
  sortedM12 : List Nat
  m12Ranks : JS.NumMap
deriving Repr

namespace P0

open JS

/-- One step of the ranking loop of `part_000`'s `radixSortM12`: the duplicate
test against the previous element of the same bucket (`i !== 0` becomes
`prev = some _`) decides the rank increment BEFORE the assignments, so equal
triples share a rank. -/
def rankStep (inputArray : List JNum) (prev : Option Obj12) (st : RankSt) (o : Obj12) :
    RankSt :=
  let dup :=
    match prev with
    | some p =>
      jsEq (read inputArray p.index) (read inputArray o.index) &&
      jsEq (read inputArray (p.index + 1)) (read inputArray (o.index + 1)) &&
      jsEq (read inputArray (p.index + 2)) (read inputArray (o.index + 2))
    | none => false
  let rank := if dup then st.currentRank else st.currentRank + 1
  { rankedM12 := setSparse st.rankedM12 o.pos rank
    sortedM12 := st.sortedM12 ++ [o.index]
    m12Ranks := mapSet st.m12Ranks o.index rank
    duplicatesFound := st.duplicatesFound || dup
    currentRank := rank }

/-- `bucket.forEach((Obj, i) => ...)` of the ranking pass, tracking the
previous element for the duplicate test. -/
def rankBucket (inputArray : List JNum) (prev : Option Obj12) (st : RankSt) :
    List Obj12 → RankSt
  | [] => st
  | o :: rest => rankBucket inputArray (some o) (rankStep inputArray prev st o) rest

/-- `radixSortM12` of `part_000`: three LSD passes over the length-3 windows
(keys `inputArray[index+i] || 0`), then the ranking pass. -/
def radixSortM12 (m12 : List Nat) (inputArray : List JNum) : M12Sort :=
  let objs := m12.enum.map fun p => Obj12.mk p.1 p.2
  let b2 := distribute (fun o => readD0 inputArray (o.index + 2)) objs
  let b1 := distribute (fun o => readD0 inputArray (o.index + 1)) (bucketsFlatten b2)
  let b0 := distribute (fun o => readD0 inputArray (o.index + 0)) (bucketsFlatten b1)
  let st := b0.foldl (fun st kb => rankBucket inputArray none st kb.2)
    ⟨[], [], [], false, 0⟩
  ⟨st.duplicatesFound, st.rankedM12, st.sortedM12, st.m12Ranks⟩

/-- `radixSortM0` of `part_000`: bucket by `m12Ranks[index + 1] || 0`, flatten,
then bucket by `inputArray[index]` (raw read; `m0` positions are always in
range, so the key is never `undefined`). -/
def radixSortM0 (m0 : List Nat) (m12Ranks : NumMap) (inputArray : List JNum) :
    List Nat :=
  let buckets := distribute (fun index => mapGetD0 m12Ranks (index + 1)) m0
  let current := bucketsFlatten buckets
  let buckets2 := distributeOpt (fun index => read inputArray index) current
  bucketsFlatten buckets2

/-- The comparator of `part_000`'s `merge`. It recurses on `(m0+1, m12+1)` only
while the positions compare equal and are not both `≢ 0 (mod 3)`; a mod-3 case
analysis shows at most two such steps can happen before both positions are
`≢ 0 (mod 3)`, so fuel 3 always suffices and the fuel-0 branch is unreachable. -/
def compare (input : List JNum) (indexRanks : NumMap) : Nat → JNum → JNum → Bool
  | 0, _, _ => false
  | fuel + 1, a, b =>
    let nz : JNum → Bool := fun v =>
      match v with
      | some k => k % 3 != 0
      | none => true
    if nz a && nz b then
      -- (indexRanks[m0] || 0) < (indexRanks[m12] || 0)
      let rk : JNum → Nat := fun v =>
        match v with
        | some k => mapGetD0 indexRanks k
        | none => 0
      decide (rk a < rk b)
    else if jsEq (readAt input a) (readAt input b) then
      compare input indexRanks fuel (jsAdd a 1) (jsAdd b 1)
    else jsLt (readAt input a) (readAt input b)

/-- The `while` loop of `merge`, with fuel: every iteration consumes one element
of one of the two lists, so fuel `|sortedM0| + |sortedM12|` always suffices and
the fuel-0 branch is unreachable. -/
def mergeGo (cmp : JNum → JNum → Bool) :
    Nat → List Nat → List JNum → List JNum → List JNum
  | _, [], m12s, acc => acc ++ m12s
  | _, m0s, [], acc => acc ++ m0s.map some
  | 0, m0s, m12s, acc => acc ++ m0s.map some ++ m12s
  | fuel + 1, a :: as', b :: bs', acc =>
    if cmp (some a) b then mergeGo cmp fuel as' (b :: bs') (acc ++ [some a])
    else mergeGo cmp fuel (a :: as') bs' (acc ++ [b])

/-- `merge` of `part_000`. -/
def merge (input : List JNum) (sortedM0 : List Nat) (sortedM12 : List JNum)
    (indexRanks : NumMap) : List JNum :=
  mergeGo (compare input indexRanks 3)
    (sortedM0.length + sortedM12.length) sortedM0 sortedM12 []

/-- `getSuffixArray` of `part_000`, with fuel standing for the recursion depth.
When the duplicates branch is taken, `m12` is nonempty, hence
`inputLength ≥ 2` and position 0 lies in `m0`, so the recursive input
`rankedM12` (one entry per `m12` element) is strictly shorter than
`initialArray`; the chain of input lengths strictly decreases and the JS
recursion depth is at most `|initialArray|`, so the fuel-0 branch is
unreachable from `getSuffixArray` below. -/
def getSuffixArrayGo : Nat → List JNum → List JNum
  | 0, _ => []
  | fuel + 1, initialArray =>
    let inputLength := initialArray.length
    -- the loop classifies i < inputLength by i % 3; its
    -- `if (i === inputLength) m1.push(i+1)` branch contradicts the loop bound
    -- and is dead code
    let m0 := (List.range inputLength).filter fun i => i % 3 == 0
    let m1 := (List.range inputLength).filter fun i => i % 3 == 1
    let m2 := (List.range inputLength).filter fun i => i % 3 == 2
    let m12 := m1 ++ m2
    let arr := initialArray ++ [some 0, some 0, some 0]
    let res := radixSortM12 m12 arr
    let (sortedM12, m12Ranks) :=
      if res.duplicatesFound then
        let rankedSA := getSuffixArrayGo fuel res.rankedM12
        let sortedM12 : List JNum := rankedSA.map fun idx => idx.bind (m12.get? ·)
        -- m12Ranks = {}; sortedM12.forEach((index, i) => m12Ranks[index] = i)
        -- (note: ranks restart at 0 here)
        let m12Ranks := sortedM12.enum.foldl
          (fun m p =>
            match p.2 with
            | some idx => mapSet m idx p.1
            | none => m)
          []
        (sortedM12, m12Ranks)
      else (res.sortedM12.map some, res.m12Ranks)
    let sortedM0 := radixSortM0 m0 m12Ranks arr
    merge arr sortedM0 sortedM12 m12Ranks

/-- `getSuffixArray` of `part_000` (see `getSuffixArrayGo` for the fuel bound). -/
def getSuffixArray (initialArray : List JNum) : List JNum :=
  getSuffixArrayGo (initialArray.length + 1) initialArray

end P0


/-! ## The DC3 suffix-array builder, `autokomplete.js` variant (`AK`) -/

namespace AK

open JS

/-- One step of the ranking loop of `autokomplete.js`'s `radixSortM12`. Unlike
`part_000`, the pushes and rank assignments happen BEFORE the duplicate test,
so the first member of a run of equal triples keeps a rank distinct from its
successors; only the later members share ranks. `o.pos` plays the source's
`originalLoc`. -/
def rankStep (inputArray : List JNum) (m12 : List Nat) (prev : Option Obj12)
    (st : RankSt) (o : Obj12) : RankSt :=
  let st1 : RankSt :=
    { st with
      sortedM12 := st.sortedM12 ++ [o.index]
      rankedM12 := setSparse st.rankedM12 o.pos st.currentRank
      -- m12Ranks[m12[originalLoc]] = currentRank (originalLoc < |m12| always)
      m12Ranks :=
        match m12.get? o.pos with
        | some key => mapSet st.m12Ranks key st.currentRank
        | none => st.m12Ranks }
  let dup :=
    match prev with
    | some p =>
      jsEq (read inputArray p.index) (read inputArray o.index) &&
      jsEq (read inputArray (p.index + 1)) (read inputArray (o.index + 1)) &&
      jsEq (read inputArray (p.index + 2)) (read inputArray (o.index + 2))
    | none => false
  { st1 with
    duplicatesFound := st1.duplicatesFound || dup
    currentRank := if dup then st1.currentRank else st1.currentRank + 1 }

/-- `bucket.forEach` of the ranking pass of `autokomplete.js`. -/
def rankBucket (inputArray : List JNum) (m12 : List Nat) (prev : Option Obj12)
    (st : RankSt) : List Obj12 → RankSt
  | [] => st
  | o :: rest =>
    rankBucket inputArray m12 (some o) (rankStep inputArray m12 prev st o) rest

/-- `radixSortM12` of `autokomplete.js`: passes at offsets 2, 1, 0 with RAW
reads `inputArray[Obj.index + i]`. A read past the end of the array gives an
`undefined` key, which files the element under a non-index property that the
following `forEach` skips: such elements silently vanish from the sort.
The loop breaks at `i = 0` before flattening, so ranking walks the pass-0
buckets. Ranks start at 1. -/
def radixSortM12 (m12 : List Nat) (inputArray : List JNum) : M12Sort :=
  let s0 := m12.enum.map fun p => Obj12.mk p.1 p.2
  let b2 := distributeOpt (fun o => read inputArray (o.index + 2)) s0
  let b1 := distributeOpt (fun o => read inputArray (o.index + 1)) (bucketsFlatten b2)
  let b0 := distributeOpt (fun o => read inputArray (o.index + 0)) (bucketsFlatten b1)
  let st := b0.foldl (fun st kb => rankBucket inputArray m12 none st kb.2)
    ⟨[], [], [], false, 1⟩
  ⟨st.duplicatesFound, st.rankedM12, st.sortedM12, st.m12Ranks⟩

/-- Whether a bucket already exists for a key (the `!buckets[value]` test:
a present bucket is a non-empty array, which is truthy). -/
def bucketHas {α : Type} : Buckets α → Nat → Bool
  | [], _ => false
  | (k', _) :: rest, k => k == k' || bucketHas rest k

set_option linter.unusedVariables false in
/-- `radixSortM0` of `autokomplete.js`. The source reads
`buckets[value].push[index]` — a property ACCESS on the `push` function, not a
call — so a bucket never grows beyond the single element it was created with.
Consequently every later `m0` position whose first symbol repeats an earlier
one is silently dropped, and the `else` branch of the output loop (which would
dereference an undeclared `i` and throw a `ReferenceError`) is unreachable
because every bucket has length 1. The `rankedM12` parameter is only consumed
by that unreachable branch. -/
def radixSortM0 (m0 : List Nat) (rankedM12 : List JNum) (inputArray : List JNum) :
    List Nat :=
  let buckets := m0.foldl
    (fun bs index =>
      match read inputArray index with
      | some value => if bucketHas bs value then bs else bucketAdd bs value index
      | none => bs)
    []
  buckets.foldl
    (fun acc kb =>
      match kb.2 with
      | [x] => acc ++ [x]
      | _ => acc)
    []

/-- The comparator of `autokomplete.js`'s `merge`: identical control flow to
`part_000`'s, but the rank comparison is the raw `indexRanks[m0] <
indexRanks[m12]` (false when either is `undefined`). The same mod-3 analysis
bounds the recursion depth by 2, so fuel 3 suffices and the fuel-0 branch is
unreachable. -/
def compare (input : List JNum) (indexRanks : NumMap) : Nat → JNum → JNum → Bool
  | 0, _, _ => false
  | fuel + 1, a, b =>
    let nz : JNum → Bool := fun v =>
      match v with
      | some k => k % 3 != 0
      | none => true
    let rk : JNum → JNum := fun v =>
      match v with
      | some k => mapGet indexRanks k
      | none => none
    if nz a && nz b then jsLt (rk a) (rk b)
    else if jsEq (readAt input a) (readAt input b) then
      compare input indexRanks fuel (jsAdd a 1) (jsAdd b 1)
    else jsLt (readAt input a) (readAt input b)

/-- `merge` of `autokomplete.js` (`shift`-based loop; same structure as
`part_000`'s index-based loop, shares `P0.mergeGo`). -/
def merge (input : List JNum) (sortedM0 : List Nat) (sortedM12 : List JNum)
    (indexRanks : NumMap) : List JNum :=
  P0.mergeGo (compare input indexRanks 3)
    (sortedM0.length + sortedM12.length) sortedM0 sortedM12 []

/-- `getSuffixArray` of `autokomplete.js`, with fuel for the recursion depth.
The loop bound is `i < array.length - 1` where `array` is the input plus TWO
zeros, so the classified positions are `0 ≤ i ≤ |initialArray|`: one position
beyond the input. In the duplicates branch neither `rankedM12` nor `m12Ranks`
is recomputed from the recursive result. The recursive input `rankedM12` is
strictly shorter than `initialArray` whenever duplicates were found (two equal
window triples require two surviving `m12` positions `≤ |initialArray| - 1`,
which forces `|initialArray| ≥ 3`, and then `|m12| ≤ |initialArray| - 1`), so
the JS recursion depth is at most `|initialArray|` and the fuel-0 branch is
unreachable from `getSuffixArray` below. -/
def getSuffixArrayGo : Nat → List JNum → List JNum
  | 0, _ => []
  | fuel + 1, initialArray =>
    let array := initialArray ++ [some 0, some 0]
    let m0 := (List.range (array.length - 1)).filter fun i => i % 3 == 0
    let m12 := (List.range (array.length - 1)).filter fun i => i % 3 != 0
    let res := radixSortM12 m12 array
    let sortedM12 : List JNum :=
      if res.duplicatesFound then
        let m12SA := getSuffixArrayGo fuel res.rankedM12
        m12SA.map fun idx => idx.bind (m12.get? ·)
      else res.sortedM12.map some
    let sortedM0 := radixSortM0 m0 res.rankedM12 array
    merge array sortedM0 sortedM12 res.m12Ranks

/-- `getSuffixArray` of `autokomplete.js` (see `getSuffixArrayGo` for the fuel
bound). -/
def getSuffixArray (initialArray : List JNum) : List JNum :=
  getSuffixArrayGo (initialArray.length + 1) initialArray

end AK


namespace JS

/-- Lexicographic `<` between two JS strings (UTF-16 unit lists). -/
def strLt : List Nat → List Nat → Bool
  | [], [] => false
  | [], _ :: _ => true
  | _ :: _, [] => false
  | a :: as', b :: bs' => a < b || (a == b && strLt as' bs')

/-- The UTF-16 units of the text `undefined`, which string concatenation
produces from an `undefined` operand. -/
def undefinedUnits : List Nat := [117, 110, 100, 101, 102, 105, 110, 101, 100]

end JS

/-! ## Construction and `match`, `part_000` variant -/

namespace P0

open JS

/-- `getCharacterArray` of `part_000`:
`entries.map(({string}) => [...string].map(char => char.toLowerCase()[0]).concat([<zero char>])).flat()`.
Each code point contributes the FIRST UTF-16 unit of its single-code-point
lowercase (the `[0]`), then a zero sentinel follows each record. A record
without a `string` attribute makes `[...undefined]` throw — the
`InvalidInput` construction failure. -/
def getCharacterArray : List JEntry → Except BuildError (List Nat)
  | [] => .ok []
  | e :: rest =>
    match e.str? with
    | none => .error .invalidInput
    | some s =>
      match getCharacterArray rest with
      | .error err => .error err
      | .ok tail => .ok ((((cpGroup s).map fun c => (cpToLower c).headD 0) ++ [0]) ++ tail)

/-- `getInputIndex` of `part_000`: starting positions advance by
`[...row.string].length + 1` (code-point count plus sentinel). -/
def getInputIndex : List JEntry → List (Nat × JEntry) :=
  go 0
where
  /-- The `currIndex` accumulator of the loop. -/
  go (curr : Nat) : List JEntry → List (Nat × JEntry)
    | [] => []
    | e :: rest => (curr, e) :: go (curr + (cpCount e.str + 1)) rest

/-- `mapCharacterArray`: each stream position is annotated with the most recent
position at which a record starts (`currentEntryIndex` is `undefined` before
the first record, which can only be observed on an empty stream). -/
def mapCharacterArray (charArray : List Nat) (entryIndex : List (Nat × JEntry)) :
    List (Nat × Option Nat) :=
  go 0 none charArray
where
  /-- Walk the characters, tracking the index `i` and the current owner. -/
  go (i : Nat) (current : Option Nat) : List Nat → List (Nat × Option Nat)
    | [] => []
    | c :: rest =>
      let current := if (entryIndex.lookup i).isSome then some i else current
      (c, current) :: go (i + 1) current rest

/-- The data `part_000`'s `build` closes over. -/
structure Model where
  suffixArray : List JNum
  entryIndex : List (Nat × JEntry)
  suffixArrayEntries : List (Option Nat)
  charArray : List Nat
deriving Repr

/-- `build` of `part_000`. The `charArray` elements are already the unit codes
(`charCodeArray = charArray.map(char => char.charCodeAt())` is the identity in
this encoding). `suffixArrayEntries = suffixArray.map(pos => mappedChars[pos].e)`;
an out-of-range `pos` would make the JS dereference throw, which cannot happen
because the suffix array of this variant only holds stream positions. -/
def build (entries : List JEntry) : Except BuildError Model :=
  match getCharacterArray entries with
  | .error e => .error e
  | .ok charArray =>
    let suffixArray := getSuffixArray (charArray.map some)
    let entryIndex := getInputIndex entries
    let mappedChars := mapCharacterArray charArray entryIndex
    let suffixArrayEntries :=
      suffixArray.map fun pos => (pos.bind (mappedChars.get? ·)).bind (·.2)
    .ok ⟨suffixArray, entryIndex, suffixArrayEntries, charArray⟩

/-- Result record of `part_000`'s `getLCP`. -/
structure LCPRes where
  lcp : List Nat
  isMatched : Bool
  nextChar : JNum
deriving Repr

/-- The character-walk of `part_000`'s `getLCP`, position `i` along the query:
`query[i]` (a unit) is compared against `charArray[suffixPos + i]`. -/
def getLCPGo (charArray : List Nat) (suffixPos : JNum) (getNext : Bool)
    (i : Nat) (lcp : List Nat) : List Nat → LCPRes
  | [] => ⟨lcp, true, none⟩
  | qc :: rest =>
    let suffixChar : JNum :=
      match suffixPos with
      | some p => charArray.get? (p + i)
      | none => none
    if suffixChar == some qc then
      getLCPGo charArray suffixPos getNext (i + 1) (lcp ++ [qc]) rest
    else ⟨lcp, false, if getNext then suffixChar else none⟩

/-- `getLCP` of `part_000`. -/
def getLCP (charArray : List Nat) (q : List Nat) (suffixPos : JNum)
    (getNext : Bool) : LCPRes :=
  getLCPGo charArray suffixPos getNext 0 [] q

/-- `binarySearch` of `part_000`, fuelled: the search range strictly shrinks at
every recursive call, so the depth is at most `|suffixArray| + 1` and the
fuel-0 branch is unreachable from `matchQuery` below. -/
def binarySearch (m : Model) (q : List Nat) (lastMatch : Bool) :
    Nat → Int → Int → Int
  | 0, _, _ => -1
  | fuel + 1, start, stop =>
    if start > stop then -1
    else
      let midpoint := start + (stop - start) / 2
      let suffixPos : JNum := (m.suffixArray.get? midpoint.toNat).join
      let r := getLCP m.charArray q suffixPos true
      if r.isMatched then
        let neighborIndex := midpoint + (if lastMatch then 1 else -1)
        if neighborIndex > (m.suffixArray.length : Int) - 1 ∨ neighborIndex < 0 then
          midpoint
        else
          let neighborPos : JNum := (m.suffixArray.get? neighborIndex.toNat).join
          let nr := getLCP m.charArray q neighborPos false
          if !nr.isMatched then midpoint
          else if lastMatch then binarySearch m q lastMatch fuel (midpoint + 1) stop
          else binarySearch m q lastMatch fuel start (midpoint - 1)
      else
        -- `query < lcp + nextChar`: string concatenation renders an
        -- `undefined` nextChar as the text `undefined`
        let cat := r.lcp ++ (match r.nextChar with
          | some c => [c]
          | none => undefinedUnits)
        if strLt q cat then binarySearch m q lastMatch fuel start (midpoint - 1)
        else binarySearch m q lastMatch fuel (midpoint + 1) stop

/-- `getEntries` of `part_000`: slice `suffixArrayEntries`, deduplicate owner
ids by first occurrence, and look each one up in `entryIndex` (the lookup of a
not-yet-seen id always succeeds in a well-formed model; JS would push
`undefined` otherwise). -/
def getEntries (m : Model) (start stop : Int) : List JEntry :=
  let slice := jsSlice m.suffixArrayEntries start (stop + 1)
  (slice.foldl
    (fun (acc : List (Option Nat) × List JEntry) eid =>
      if acc.1.contains eid then acc
      else
        ( acc.1 ++ [eid]
        , acc.2 ++ (match eid with
            | some k => (m.entryIndex.lookup k).toList
            | none => []) ))
    ([], [])).2

/-- `match` of `part_000` (named `matchQuery` because `match` is reserved in
Lean): lower-case the query, run the two binary searches, and materialise the
range between them. -/
def matchQuery (m : Model) (query : List Nat) : List JEntry :=
  let q := toLower query
  let fuel := m.suffixArray.length + 2
  let firstMatch := binarySearch m q false fuel 0 ((m.suffixArray.length : Int) - 1)
  let lastMatch := binarySearch m q true fuel 0 ((m.suffixArray.length : Int) - 1)
  getEntries m firstMatch lastMatch

end P0


/-! ## Construction and `match`, `autokomplete.js` variant -/

namespace AK

open JS

/-- `mapCharacterCodes` of `autokomplete.js`:
`entries.map(({string}) => [...string.toLowerCase()].map(char => char.charCodeAt()).concat([0])).flat()`.
The whole text is lower-cased first, then iterated by code points;
`charCodeAt()` keeps only the FIRST unit of each code point. A record without
a `string` attribute makes `undefined.toLowerCase()` throw — the
`InvalidInput` construction failure. -/
def mapCharacterCodes : List JEntry → Except BuildError (List Nat)
  | [] => .ok []
  | e :: rest =>
    match e.str? with
    | none => .error .invalidInput
    | some s =>
      match mapCharacterCodes rest with
      | .error err => .error err
      | .ok tail => .ok ((((cpGroup (toLower s)).map fun c => c.headD 0) ++ [0]) ++ tail)

/-- `getInputIndex` of `autokomplete.js`: starting positions advance by
`row.string.length + 1` — the UTF-16 CODE-UNIT count of the original text,
not the code-point count of the stream actually built. -/
def getInputIndex : List JEntry → List (Nat × JEntry) :=
  go 0
where
  /-- The `currIndex` accumulator of the loop. -/
  go (curr : Nat) : List JEntry → List (Nat × JEntry)
    | [] => []
    | e :: rest => (curr, e) :: go (curr + (e.str.length + 1)) rest

/-- The data `autokomplete.js`'s `build` closes over. -/
structure Model where
  suffixArray : List JNum
  entryIndex : List (Nat × JEntry)
deriving Repr

/-- `build` of `autokomplete.js`. -/
def build (entries : List JEntry) : Except BuildError Model :=
  match mapCharacterCodes entries with
  | .error e => .error e
  | .ok charCodeArray =>
    .ok ⟨getSuffixArray (charCodeArray.map some), getInputIndex entries⟩

/-- `getRow`: `while (!(row = entryIndex[rowPos])) rowPos--;`. The JS loop
walks `rowPos` down through the integers; `none` models the DIVERGENCE that
occurs when no record starts at or below `suffixPos` (the loop then decrements
forever through negative keys), which is reachable exactly on the empty
model. -/
def getRow (entryIndex : List (Nat × JEntry)) : Nat → Option (Nat × JEntry)
  | 0 => (entryIndex.lookup 0).map ((0, ·))
  | p + 1 =>
    match entryIndex.lookup (p + 1) with
    | some row => some (p + 1, row)
    | none => getRow entryIndex p

/-- `getSuffixInfo`: find the owning row and slice its lower-cased text from
`suffixPos - rowPos` onward (`slice` works on code units). Returns
`(suffix, rowPos)`; propagates `getRow`'s divergence as `none`. -/
def getSuffixInfo (entryIndex : List (Nat × JEntry)) (suffixPos : Nat) :
    Option (List Nat × Nat) :=
  (getRow entryIndex suffixPos).map fun pr =>
    ((toLower pr.2.str).drop (suffixPos - pr.1), pr.1)

/-- The loop of `autokomplete.js`'s `getLCP` for the two-string case: walk
`[...lcp]` (CODE POINTS, with index `i`) against `string[i]` (UNIT `i`); on the
first difference the result is `lcp.slice(0, i)` — a UNIT slice at the
code-point index. For the all-ASCII and all-BMP inputs below the two indexings
agree. -/
def lcpTrim (s : List Nat) (lcp : List Nat) : List Nat :=
  go 0 (cpGroup lcp)
where
  /-- Walk the enumerated code points of `lcp`. -/
  go (i : Nat) : List (List Nat) → List Nat
    | [] => lcp
    | c :: rest =>
      let same :=
        match c, s.get? i with
        | [u], some u' => u == u'
        | _, _ => false
      if same then go (i + 1) rest else lcp.take i

/-- `getLCP(query, suffix)` of `autokomplete.js` (`lcp = strings[0] || ''`
is the identity here since the empty string is already `[]`). -/
def getLCP (query s : List Nat) : List Nat := lcpTrim s query

/-- `matchSuffix`: the query matches when it is its own longest common prefix
with the suffix. -/
def matchSuffix (query s : List Nat) : Bool := getLCP query s == query

/-- `matchRow`: the row position of the suffix at `suffixArray[index]` when the
query matches there; `none` is the JS `undefined` fall-through. -/
def matchRow (m : Model) (q : List Nat) (index : Nat) : Option Nat :=
  match (m.suffixArray.get? index).join with
  | some sp =>
    match getSuffixInfo m.entryIndex sp with
    | some (suffix, rowPos) => if matchSuffix q suffix then some rowPos else none
    | none => none
  | none => none

/-- The upward walk of `farmMatches` from index `i`, with fuel (the walk can
visit at most `|suffixArray|` indices). `if (!rowPos) break` stops BOTH on a
non-match (`undefined`) and on the FALSY row position `0` — the first record's
row. -/
def farmUp (m : Model) (q : List Nat) : Nat → Nat → List Nat
  | _, 0 => []
  | i, fuel + 1 =>
    if i < m.suffixArray.length then
      match matchRow m q i with
      | some (k + 1) => (k + 1) :: farmUp m q (i + 1) fuel
      | _ => []
    else []

/-- The downward walk of `farmMatches` from index `i` to 0, with the same
falsy-zero break. -/
def farmDown (m : Model) (q : List Nat) : Nat → List Nat
  | 0 =>
    match matchRow m q 0 with
    | some (k + 1) => [k + 1]
    | _ => []
  | i + 1 =>
    match matchRow m q (i + 1) with
    | some (k + 1) => (k + 1) :: farmDown m q i
    | _ => []

/-- `binarySearch` of `autokomplete.js`, fuelled: the range strictly shrinks
every call, so depth ≤ `|suffixArray| + 1` and the fuel-0 branch is
unreachable from `matchQuery` below. Returns `(rowPos, matchIndex)` on a
match, `none` for `matchIndex = -1`; an `undefined` suffix position or a
divergent `getRow` (empty model only) is also `none`. -/
def binarySearch (m : Model) (q : List Nat) :
    Nat → Int → Int → Option (Nat × Nat)
  | 0, _, _ => none
  | fuel + 1, start, stop =>
    if start > stop then none
    else
      let midpoint := start + (stop - start) / 2
      match (m.suffixArray.get? midpoint.toNat).join with
      | none => none
      | some sp =>
        match getSuffixInfo m.entryIndex sp with
        | none => none
        | some (suffix, rowPos) =>
          if matchSuffix q suffix then some (rowPos, midpoint.toNat)
          else if strLt q suffix then binarySearch m q fuel start (midpoint - 1)
          else binarySearch m q fuel (midpoint + 1) stop

/-- `[...new Set(matches)]`: deduplicate, keeping first occurrences in order. -/
def uniqueFirst (l : List Nat) : List Nat :=
  l.foldl (fun acc x => if acc.contains x then acc else acc ++ [x]) []

/-- `match` of `autokomplete.js` (named `matchQuery`; `match` is reserved in
Lean): one binary search to any match, then farm outward in both directions,
deduplicate row positions and map them through `entryIndex`. -/
def matchQuery (m : Model) (query : List Nat) : List JEntry :=
  let q := toLower query
  let fuel := m.suffixArray.length + 2
  match binarySearch m q fuel 0 ((m.suffixArray.length : Int) - 1) with
  | none => []
  | some (rowPos, matchIndex) =>
    let matchList := [rowPos] ++ farmUp m q (matchIndex + 1) m.suffixArray.length
      ++ (match matchIndex with
          | 0 => []
          | j + 1 => farmDown m q j)
    (uniqueFirst matchList).foldl
      (fun acc rp => acc ++ (m.entryIndex.lookup rp).toList) []

end AK


/-! ## Records with arbitrary payloads, JSON round-trips, `remove`, `insert`

`remove` manipulates whole records as JSON data
(`JSON.parse(JSON.stringify(...))`, `JSON.stringify(sortProps(entry))`), so
this part of the embedding models a record as an ordered list of top-level
properties over a JSON-with-functions value type. -/

/-- A JavaScript value as `remove` can encounter it: JSON data plus
function-valued properties (opaque, identified by a tag) and `undefined`.
Numbers are modelled as integers so that `JSON.stringify` renders equal
values identically. -/
inductive JSValue where
  | null
  | bool (b : Bool)
  | num (n : Int)
  | str (s : String)
  | arr (elems : List JSValue)
  | obj (fields : List (String × JSValue))
  | fn (id : Nat)
  | undefined

/-- A record: its top-level properties in insertion order. -/
abbrev JRecord := List (String × JSValue)

mutual

/-- `JSON.stringify` followed by `JSON.parse`, on a single value: `none` when
the value is a function or `undefined` (such an OBJECT property is omitted
entirely; such an ARRAY element becomes `null`). -/
def stripVal : JSValue → Option JSValue
  | .null => some .null
  | .bool b => some (.bool b)
  | .num n => some (.num n)
  | .str s => some (.str s)
  | .arr xs => some (.arr (stripArr xs))
  | .obj fs => some (.obj (stripFields fs))
  | .fn _ => none
  | .undefined => none

/-- Array elements under the round trip: function/`undefined` become `null`. -/
def stripArr : List JSValue → List JSValue
  | [] => []
  | x :: rest => (stripVal x).getD .null :: stripArr rest

/-- Object properties under the round trip: function/`undefined`-valued
properties disappear. -/
def stripFields : List (String × JSValue) → List (String × JSValue)
  | [] => []
  | (k, v) :: rest =>
    match stripVal v with
    | some v' => (k, v') :: stripFields rest
    | none => stripFields rest

end


mutual

/-- Structural equality of two JS values, used to model equality of their
`JSON.stringify` renderings (the rendering is injective on round-tripped
values: integers, strings and booleans print canonically and property order
is preserved). -/
def beqVal : JSValue → JSValue → Bool
  | .null, .null => true
  | .bool a, .bool b => a == b
  | .num a, .num b => a == b
  | .str a, .str b => a == b
  | .arr a, .arr b => beqArr a b
  | .obj a, .obj b => beqFields a b
  | .fn a, .fn b => a == b
  | .undefined, .undefined => true
  | _, _ => false

/-- Elementwise `beqVal`. -/
def beqArr : List JSValue → List JSValue → Bool
  | [], [] => true
  | a :: as', b :: bs' => beqVal a b && beqArr as' bs'
  | _, _ => false

/-- Property-wise `beqVal` (names and order must agree, as in the rendered
JSON text). -/
def beqFields : List (String × JSValue) → List (String × JSValue) → Bool
  | [], [] => true
  | (k, v) :: as', (k', v') :: bs' => k == k' && beqVal v v' && beqFields as' bs'
  | _, _ => false

end

/-- Insert a property into a list sorted by name, for `sortProps`. The source
comparator `(a, b) => (a[0] < b[0] ? -1 : 1)` reports "after" for equal names,
so an equal name is inserted after the existing ones. -/
def insertByKey (x : String × JSValue) : JRecord → JRecord
  | [] => [x]
  | y :: rest => if x.1 < y.1 then x :: y :: rest else y :: insertByKey x rest

/-- `sortProps`: `Object.fromEntries(Object.entries(entry).sort((a, b) => (a[0] < b[0] ? -1 : 1)))` —
sort the top-level properties by name (JS compares names by UTF-16 order;
the names in use here are ASCII, where Lean's `String` order agrees). -/
def sortProps (r : JRecord) : JRecord := r.foldl (fun acc x => insertByKey x acc) []

/-- `entry.string`: property lookup, `undefined` when absent. -/
def getProp (r : JRecord) (k : String) : JSValue := (r.lookup k).getD .undefined

/-- `strings.includes(entry.string)`: `includes` compares with `===`, so only
a string-valued property can ever match a member of the list. -/
def jsStrIncludes (ss : List String) : JSValue → Bool
  | .str s => ss.contains s
  | _ => false

/-- The criteria object `{ strings, entries, filters }` of `remove`; a `none`
field models an absent property. Filters are arbitrary record predicates
(their JS truthiness is folded into the `Bool`). -/
structure Criteria where
  strings : Option (List String)
  entries : Option (List JRecord)
  filters : Option (List (JRecord → Bool))

/-- The canonical form whose rendering `JSON.stringify(sortProps(x))`
produces: sort the top-level properties, then serialise (dropping
function/`undefined` properties). -/
def canonOf (r : JRecord) : JRecord := stripFields (sortProps r)

/-- The retention predicate of `remove`'s `filter` callback, applied to a
round-tripped stored record: no filter fires, the `string` property is not in
`strings`, and the canonical rendering matches no member of `entries`. -/
def retain (c : Criteria) (entry : JRecord) : Bool :=
  (match c.filters with
   | some fs => fs.all fun f => !f entry
   | none => true) &&
  (match c.strings with
   | some ss => !jsStrIncludes ss (getProp entry "string")
   | none => true) &&
  (match c.entries with
   | some es => !(es.map canonOf).any fun s => beqFields s (canonOf entry)
   | none => true)

/-- The record list of the model `remove` returns:
`Object.values(JSON.parse(JSON.stringify(entryIndex)))` round-trips every
stored record (in stored order), and the `filter` keeps those that `retain`
accepts. The result is handed to `autocompleter` to build the new model. -/
def removeEntries (stored : List JRecord) (c : Criteria) : List JRecord :=
  (stored.map stripFields).filter (retain c)

/-- The argument of `insert`: one record or an array of records. -/
inductive InsertArg where
  | one (r : JRecord)
  | many (rs : List JRecord)

/-- `(!entries) instanceof Array`: the operand of `instanceof` is the BOOLEAN
`!entries`, never an `Array`, so the test is constantly false — this is how
the source's `if (!entries instanceof Array) entries = [entries]` parses. -/
def notInstanceofArray (_ : InsertArg) : Bool := false

/-- `entries = [entries]`: the wrap the dead guard would perform (wrapping an
array argument would nest it, which this record-list type cannot express;
the branch is unreachable, see `notInstanceofArray`). -/
def wrapArg : InsertArg → InsertArg
  | .one r => .many [r]
  | .many rs => .many rs

/-- `Object.values(entryIndex).concat(entries)`: `concat` spreads an array
argument into its elements and appends a non-array argument as a single
element. -/
def jsConcat (stored : List JRecord) : InsertArg → List JRecord
  | .one r => stored ++ [r]
  | .many rs => stored ++ rs

/-- The record list of the model `insert` returns (handed to `autocompleter`
to build the new model). -/
def insertEntries (stored : List JRecord) (arg : InsertArg) : List JRecord :=
  let arg := if notInstanceofArray arg then wrapArg arg else arg
  jsConcat stored arg

mutual

/-- No function/`undefined` value occurs anywhere in the value. -/
def cleanVal : JSValue → Bool
  | .null => true
  | .bool _ => true
  | .num _ => true
  | .str _ => true
  | .arr xs => cleanArr xs
  | .obj fs => cleanFields fs
  | .fn _ => false
  | .undefined => false

/-- `cleanVal` over array elements. -/
def cleanArr : List JSValue → Bool
  | [] => true
  | x :: rest => cleanVal x && cleanArr rest

/-- `cleanVal` over property values. -/
def cleanFields : List (String × JSValue) → Bool
  | [] => true
  | (_, v) :: rest => cleanVal v && cleanFields rest

end


/-! ## Claim-side reference definitions (stated from the specification text) -/

namespace Spec

/-- The claim's matching predicate: `needle` occurs in `hay` as a contiguous
substring (both already lower-cased by the caller). -/
def containsSub (hay needle : List Nat) : Bool :=
  (List.range (hay.length + 1)).any fun i => needle.isPrefixOf (hay.drop i)

/-- Strict lexicographic comparison of two suffixes of the symbol stream under
direct character comparison; the sentinel 0 is the least symbol, and a proper
prefix precedes its extensions. -/
def lexLt : List Nat → List Nat → Bool
  | [], [] => false
  | [], _ :: _ => true
  | _ :: _, [] => false
  | a :: as', b :: bs' => decide (a < b) || (a == b && lexLt as' bs')

/-- The record-start rule the claim states: each record starts at the
cumulative sum over all earlier records of
(code-point count of the lower-cased text + 1). -/
def recordStarts (entries : List JEntry) : List Nat :=
  go 0 entries
where
  /-- Accumulate the cumulative start position. -/
  go (curr : Nat) : List JEntry → List Nat
    | [] => []
    | e :: rest => curr :: go (curr + (JS.cpCount (JS.toLower e.str) + 1)) rest

end Spec

/-! ## Theorems settling the claims -/

mutual

/-- A value surviving the JSON round trip holds no function/`undefined`
anywhere. -/
theorem stripVal_clean : ∀ (v w : JSValue), stripVal v = some w → cleanVal w = true
  | .null, _, h => by
    simp only [stripVal, Option.some.injEq] at h; subst h; rfl
  | .bool _, _, h => by
    simp only [stripVal, Option.some.injEq] at h; subst h; rfl
  | .num _, _, h => by
    simp only [stripVal, Option.some.injEq] at h; subst h; rfl
  | .str _, _, h => by
    simp only [stripVal, Option.some.injEq] at h; subst h; rfl
  | .arr xs, _, h => by
    simp only [stripVal, Option.some.injEq] at h
    subst h
    simpa [cleanVal] using stripArr_clean xs
  | .obj fs, _, h => by
    simp only [stripVal, Option.some.injEq] at h
    subst h
    simpa [cleanVal] using stripFields_clean fs

/-- Array elements after the round trip are clean. -/
theorem stripArr_clean : ∀ (xs : List JSValue), cleanArr (stripArr xs) = true
  | [] => rfl
  | x :: rest => by
    have ht := stripArr_clean rest
    cases hx : stripVal x with
    | none => simp [stripArr, hx, cleanArr, ht, cleanVal]
    | some w =>
      have hw := stripVal_clean x w hx
      simp [stripArr, hx, cleanArr, ht, hw]

/-- Properties after the round trip are clean. -/
theorem stripFields_clean : ∀ (fs : List (String × JSValue)),
    cleanFields (stripFields fs) = true
  | [] => rfl
  | (k, v) :: rest => by
    have ht := stripFields_clean rest
    cases hv : stripVal v with
    | none => simpa [stripFields, hv] using ht
    | some w =>
      have hw := stripVal_clean v w hv
      simp [stripFields, hv, cleanFields, ht, hw]

end

/-- Claim C1 (code bug evaluation). With records `{string: "a"}`, `{string: "ba"}`
and query `"a"`, `lowercase("ba")` contains `lowercase("a")` as a substring,
yet `autokomplete.js`'s `match` returns only the first record: the suffix
array built by that variant drops stream positions, and `farmMatches` treats
row position 0 as falsy and stops. With the single record `{string: "pizza🍕"}`
(code units `[112,105,122,122,97,55356,57173]`) and query `"🍕"`
(`[55356,57173]`), the record's lower-cased text contains the query, yet
`part_000`'s `match` returns nothing: its character array keeps only the first
UTF-16 unit of each code point, so the query's low surrogate can never match.
Both cited variants therefore violate the claimed substring-matching contract,
which the repository's own tests assert. -/
theorem c1_match_misses_substring_matches :
    (AK.build [⟨some [97], 0⟩, ⟨some [98, 97], 1⟩]).map
        (fun m => AK.matchQuery m [97]) = .ok [⟨some [97], 0⟩]
    ∧ Spec.containsSub (JS.toLower [98, 97]) (JS.toLower [97]) = true
    ∧ (⟨some [98, 97], 1⟩ : JEntry) ∉ [(⟨some [97], 0⟩ : JEntry)]
    ∧ (P0.build [⟨some [112, 105, 122, 122, 97, 55356, 57173], 0⟩]).map
        (fun m => P0.matchQuery m [55356, 57173]) = .ok []
    ∧ Spec.containsSub (JS.toLower [112, 105, 122, 122, 97, 55356, 57173])
        (JS.toLower [55356, 57173]) = true :=
  ⟨rfl, by decide, by decide, rfl, by decide⟩

/-- Claim C2 (code bug evaluation). The single record `{string: "ab"}` yields
the symbol stream `[97, 98, 0]` of length `n = 3`, but `autokomplete.js`'s
`getSuffixArray` returns `[2, 3, 0, 1]`: four entries instead of three, and
the padding position 3 (the first zero appended beyond the stream) IS indexed,
because the classification loop runs to `array.length - 1 = n + 1`. The
`part_000` variant returns the correct permutation `[2, 0, 1]` on the same
stream, confirming the claimed invariant as the intent. -/
theorem c2_suffix_array_not_permutation :
    AK.mapCharacterCodes [⟨some [97, 98], 0⟩] = .ok [97, 98, 0]
    ∧ AK.getSuffixArray ([97, 98, 0].map some) = [some 2, some 3, some 0, some 1]
    ∧ (AK.getSuffixArray ([97, 98, 0].map some)).length ≠ 3
    ∧ some 3 ∈ AK.getSuffixArray ([97, 98, 0].map some)
    ∧ P0.getSuffixArray ([97, 98, 0].map some) = [some 2, some 0, some 1]
    ∧ ([2, 0, 1] : List Nat).Perm (List.range 3) :=
  ⟨rfl, rfl, by decide, by decide, rfl, by decide⟩

/-- Claim C3 (code bug evaluation). For records `{string: "aab"}, {string: "ab"}`
the stream is `[97,97,98,0,97,98,0]` and `part_000` produces the suffix array
`[6,3,0,1,4,5,2]`, whose adjacent entries at slots 3 and 4 are positions 1 and
4; the suffix at 4 (`ab␀`) is a proper prefix of the suffix at 1 (`ab␀ab␀`),
so the suffix at `SA[3]` is NOT lexicographically smaller than the suffix at
`SA[4]` — sortedness fails (rank 0 collides with "not in m12" after the DC3
recursion). `autokomplete.js` fails too: on stream `[97,98,0]` its suffix
array starts `2, 3`, and the suffix `␀` at 2 is not smaller than the empty
suffix at the padding position 3. -/
theorem c3_suffix_array_not_sorted :
    P0.getCharacterArray [⟨some [97, 97, 98], 0⟩, ⟨some [97, 98], 1⟩]
      = .ok [97, 97, 98, 0, 97, 98, 0]
    ∧ P0.getSuffixArray ([97, 97, 98, 0, 97, 98, 0].map some)
      = [some 6, some 3, some 0, some 1, some 4, some 5, some 2]
    ∧ Spec.lexLt ([97, 97, 98, 0, 97, 98, 0].drop 1) ([97, 97, 98, 0, 97, 98, 0].drop 4)
      = false
    ∧ AK.getSuffixArray ([97, 98, 0].map some) = [some 2, some 3, some 0, some 1]
    ∧ Spec.lexLt ([97, 98, 0].drop 2) ([97, 98, 0].drop 3) = false :=
  ⟨rfl, rfl, by decide, rfl, by decide⟩

/-- Claim C4 (code bug evaluation). For records `{string: "🐪"}` (one code
point, two code units `[55357, 56362]`) and `{string: "a"}`,
`autokomplete.js`'s `getInputIndex` records start positions `[0, 3]` (it
advances by `row.string.length + 1`, a UTF-16 code-unit count), while the
claimed rule — cumulative (code-point count of the lower-cased text + 1) —
gives `[0, 2]`, which is what `part_000` records and what lines up with the
code-point-built stream `[55357, 0, 97, 0]`: under the `autokomplete.js` map,
stream position 2, the first character of the second record, is owned by the
FIRST record. -/
theorem c4_record_starts_use_unit_count :
    (AK.getInputIndex [⟨some [55357, 56362], 0⟩, ⟨some [97], 1⟩]).map Prod.fst
      = [0, 3]
    ∧ Spec.recordStarts [⟨some [55357, 56362], 0⟩, ⟨some [97], 1⟩] = [0, 2]
    ∧ (P0.getInputIndex [⟨some [55357, 56362], 0⟩, ⟨some [97], 1⟩]).map Prod.fst
      = [0, 2]
    ∧ AK.mapCharacterCodes [⟨some [55357, 56362], 0⟩, ⟨some [97], 1⟩]
      = .ok [55357, 0, 97, 0]
    ∧ (AK.getRow (AK.getInputIndex [⟨some [55357, 56362], 0⟩, ⟨some [97], 1⟩]) 2).map
        Prod.snd = some ⟨some [55357, 56362], 0⟩ :=
  ⟨rfl, rfl, rfl, rfl, rfl⟩

/-- Claim C7 (code bug evaluation). On the two records `{string: "a"}`,
`{string: "b"}`, `autokomplete.js`'s `match("")` returns only `{string: "b"}`:
the farming walk executes `if (!rowPos) break`, and the first record's row
position 0 is falsy, so the walk stops and the record is dropped. The
`part_000` variant returns both records, one occurrence each, confirming the
claimed behaviour as the intent (the repository's `remove` tests rely on it). -/
theorem c7_empty_query_drops_record_zero :
    (AK.build [⟨some [97], 0⟩, ⟨some [98], 1⟩]).map (fun m => AK.matchQuery m [])
      = .ok [⟨some [98], 1⟩]
    ∧ (⟨some [97], 0⟩ : JEntry) ∉ [(⟨some [98], 1⟩ : JEntry)]
    ∧ (P0.build [⟨some [97], 0⟩, ⟨some [98], 1⟩]).map (fun m => P0.matchQuery m [])
      = .ok [⟨some [98], 1⟩, ⟨some [97], 0⟩] :=
  ⟨rfl, by decide, rfl⟩

/-- Claim C8 (code bug evaluation). On the empty record list the stream is
empty, yet `autokomplete.js`'s `getSuffixArray` returns `[0]` — its
classification loop still inspects position 0 of the zero padding — so the
suffix array is NOT empty (and a query on that model would make `getRow` walk
`rowPos` down forever, as the owner map is empty). The `part_000` variant
conforms to the claim: empty stream, empty suffix array, and every query
returns the empty list. -/
theorem c8_empty_input :
    AK.mapCharacterCodes [] = .ok []
    ∧ AK.getSuffixArray [] = [some 0]
    ∧ AK.getSuffixArray [] ≠ []
    ∧ P0.build [] = .ok ⟨[], [], [], []⟩
    ∧ ∀ q : List Nat, (P0.build []).map (fun m => P0.matchQuery m q) = .ok [] :=
  ⟨rfl, rfl, by decide, rfl, fun _ => rfl⟩

/-- Claim C6: `insert` returns a model over the current records in stored
order followed by the inserted ones; a lone (non-array) record behaves as if
wrapped in a one-element list. The guard `if (!entries instanceof Array)`
parses as `(!entries) instanceof Array` and never fires, but
`Array.prototype.concat` appends a non-array argument as a single element, so
the wrapped and unwrapped calls coincide anyway. -/
theorem c6_insert_appends :
    ∀ (stored : List JRecord) (r : JRecord) (rs : List JRecord),
      insertEntries stored (.one r) = stored ++ [r]
      ∧ insertEntries stored (.one r) = insertEntries stored (.many [r])
      ∧ insertEntries stored (.many rs) = stored ++ rs :=
  fun _ _ _ => ⟨rfl, rfl, rfl⟩

/-- `autokomplete.js`'s `mapCharacterCodes` fails exactly when some record
lacks the `string` attribute. -/
theorem AK.mapCharacterCodes_error_iff (entries : List JEntry) :
    AK.mapCharacterCodes entries = .error .invalidInput
      ↔ ∃ e ∈ entries, e.str? = none := by
  induction entries with
  | nil => simp [AK.mapCharacterCodes]
  | cons e rest ih =>
    cases h : e.str? with
    | none =>
      refine iff_of_true ?_ ⟨e, List.mem_cons_self e rest, h⟩
      simp [AK.mapCharacterCodes, h]
    | some s =>
      cases hr : AK.mapCharacterCodes rest with
      | error err =>
        cases err
        refine iff_of_true ?_ ?_
        · simp [AK.mapCharacterCodes, h, hr]
        · obtain ⟨w, hw, hw2⟩ := ih.mp hr
          exact ⟨w, List.mem_cons_of_mem e hw, hw2⟩
      | ok tail =>
        refine iff_of_false ?_ ?_
        · simp [AK.mapCharacterCodes, h, hr]
        · rintro ⟨w, hw, hw2⟩
          rcases List.mem_cons.mp hw with hwe | hwr
          · rw [hwe] at hw2; rw [hw2] at h; exact Option.noConfusion h
          · exact absurd (ih.mpr ⟨w, hwr, hw2⟩) (by simp [hr])

/-- `part_000`'s `getCharacterArray` fails exactly when some record lacks the
`string` attribute. -/
theorem P0.getCharacterArray_error_iff (entries : List JEntry) :
    P0.getCharacterArray entries = .error .invalidInput
      ↔ ∃ e ∈ entries, e.str? = none := by
  induction entries with
  | nil => simp [P0.getCharacterArray]
  | cons e rest ih =>
    cases h : e.str? with
    | none =>
      refine iff_of_true ?_ ⟨e, List.mem_cons_self e rest, h⟩
      simp [P0.getCharacterArray, h]
    | some s =>
      cases hr : P0.getCharacterArray rest with
      | error err =>
        cases err
        refine iff_of_true ?_ ?_
        · simp [P0.getCharacterArray, h, hr]
        · obtain ⟨w, hw, hw2⟩ := ih.mp hr
          exact ⟨w, List.mem_cons_of_mem e hw, hw2⟩
      | ok tail =>
        refine iff_of_false ?_ ?_
        · simp [P0.getCharacterArray, h, hr]
        · rintro ⟨w, hw, hw2⟩
          rcases List.mem_cons.mp hw with hwe | hwr
          · rw [hwe] at hw2; rw [hw2] at h; exact Option.noConfusion h
          · exact absurd (ih.mpr ⟨w, hwr, hw2⟩) (by simp [hr])

/-- Claim C9: construction fails (with the `InvalidInput` failure — the only
failure either builder can produce, raised before any model state exists, so
no partial model escapes) if and only if some record lacks the `string`
attribute; equivalently, construction succeeds whenever every record carries
one. Both variants are covered; `insert` and `remove` rebuild through the same
constructor, so the failure propagates to them unchanged. -/
theorem c9_construction_fails_iff_missing_string :
    ∀ entries : List JEntry,
      (AK.build entries = .error .invalidInput ↔ ∃ e ∈ entries, e.str? = none)
      ∧ (P0.build entries = .error .invalidInput ↔ ∃ e ∈ entries, e.str? = none)
      ∧ ((AK.build entries).isOk ↔ ∀ e ∈ entries, (e.str?).isSome)
      ∧ ((P0.build entries).isOk ↔ ∀ e ∈ entries, (e.str?).isSome) := by
  intro entries
  have hak : AK.build entries = .error .invalidInput ↔ ∃ e ∈ entries, e.str? = none := by
    rw [← AK.mapCharacterCodes_error_iff]
    cases h : AK.mapCharacterCodes entries with
    | error err => cases err; simp [AK.build, h]
    | ok c => simp [AK.build, h]
  have hp0 : P0.build entries = .error .invalidInput ↔ ∃ e ∈ entries, e.str? = none := by
    rw [← P0.getCharacterArray_error_iff]
    cases h : P0.getCharacterArray entries with
    | error err => cases err; simp [P0.build, h]
    | ok c => simp [P0.build, h]
    -- `isOk` holds exactly when the (only possible) failure does not: a record
    -- with a missing attribute exists iff not every record has one
  have flip : ∀ {α : Type} {err : Except BuildError α},
      (err = .error .invalidInput ↔ ∃ e ∈ entries, e.str? = none) →
      (err.isOk ↔ ∀ e ∈ entries, (e.str?).isSome) := by
    intro α err hiff
    cases err with
    | error e =>
      cases e
      simp only [Except.isOk, Except.toBool, Bool.false_eq_true, false_iff]
      intro hall
      obtain ⟨w, hw, hw2⟩ := hiff.mp rfl
      have := hall w hw
      rw [hw2] at this
      exact absurd this (by simp)
    | ok m =>
      simp only [Except.isOk, Except.toBool, true_iff]
      intro e he
      cases hs : e.str? with
      | none => exact absurd (hiff.mpr ⟨e, he, hs⟩) (by simp)
      | some s => rfl
  exact ⟨hak, hp0, flip hak, flip hp0⟩

/-- `includes` over an absent (`getD []`) strings list never fires. -/
theorem jsStrIncludes_nil (v : JSValue) : jsStrIncludes [] v = false := by
  cases v <;> rfl

/-- `retain` unfolded into the three claimed conditions (an absent criterion
normalises to the empty list of that criterion). -/
theorem retain_eq_true_iff (c : Criteria) (r : JRecord) :
    retain c r = true ↔
      (∀ f ∈ c.filters.getD [], f r = false)
      ∧ jsStrIncludes (c.strings.getD []) (getProp r "string") = false
      ∧ (∀ e ∈ c.entries.getD [], beqFields (canonOf e) (canonOf r) = false) := by
  obtain ⟨cs, ce, cf⟩ := c
  unfold retain
  cases cf <;> cases cs <;> cases ce <;>
    simp [jsStrIncludes_nil, List.all_eq_true, List.any_eq_true,
      Bool.not_eq_true', List.mem_map, and_assoc]

/-- Claim C5 (amended): a record list entry of the returned model is exactly
the JSON round-trip of a stored record that passes all three criteria, the
criteria being evaluated on the round-tripped record (the filter callbacks run
on `JSON.parse(JSON.stringify(...))` copies). -/
theorem c5_remove_retention :
    ∀ (stored : List JRecord) (c : Criteria) (r : JRecord),
      r ∈ removeEntries stored c ↔
        (∃ e ∈ stored, stripFields e = r)
        ∧ (∀ f ∈ c.filters.getD [], f r = false)
        ∧ jsStrIncludes (c.strings.getD []) (getProp r "string") = false
        ∧ (∀ e ∈ c.entries.getD [], beqFields (canonOf e) (canonOf r) = false) := by
  intro stored c r
  unfold removeEntries
  rw [List.mem_filter, retain_eq_true_iff, List.mem_map]

/-- Claim C5 (counterexample to the claim as stated): with NO criteria at all,
the claim would retain every record of the model, but a record carrying a
function-valued property is not an element of the returned record list — only
its JSON round-trip (with the property removed) is. -/
theorem c5_counterexample :
    removeEntries [[("f", JSValue.fn 0), ("string", JSValue.str "a")]]
        ⟨none, none, none⟩ = [[("string", JSValue.str "a")]]
    ∧ [("f", JSValue.fn 0), ("string", JSValue.str "a")] ∉
        removeEntries [[("f", JSValue.fn 0), ("string", JSValue.str "a")]]
          ⟨none, none, none⟩ := by
  refine ⟨rfl, ?_⟩
  intro h
  rw [show removeEntries [[("f", JSValue.fn 0), ("string", JSValue.str "a")]]
      ⟨none, none, none⟩ = [[("string", JSValue.str "a")]] from rfl] at h
  simp at h

/-- Claim C10: every record stored by the model `remove` returns is the JSON
serialisation round-trip of a surviving stored record, and therefore contains
no function- or `undefined`-valued property at any depth — this holds for
every criteria object, including the empty one that touches no record. -/
theorem c10_remove_stores_json_roundtrips :
    ∀ (stored : List JRecord) (c : Criteria) (r : JRecord),
      r ∈ removeEntries stored c →
        (∃ e ∈ stored, stripFields e = r) ∧ cleanFields r = true := by
  intro stored c r hr
  unfold removeEntries at hr
  have h1 := (List.mem_filter.mp hr).1
  obtain ⟨e, he, hse⟩ := List.mem_map.mp h1
  exact ⟨⟨e, he, hse⟩, hse ▸ stripFields_clean e⟩

/-- Witness for C10 at a concrete input: removing with no criteria from a
model holding one record with a function-valued property yields its cleaned
round-trip. -/
theorem c10_witness :
    (∃ e ∈ [[("f", JSValue.fn 0), ("string", JSValue.str "a")]],
        stripFields e = [("string", JSValue.str "a")])
      ∧ cleanFields [("string", JSValue.str "a")] = true :=
  c10_remove_stores_json_roundtrips
    [[("f", JSValue.fn 0), ("string", JSValue.str "a")]] ⟨none, none, none⟩
    [("string", JSValue.str "a")]
    (by
      rw [show removeEntries [[("f", JSValue.fn 0), ("string", JSValue.str "a")]]
          ⟨none, none, none⟩ = [[("string", JSValue.str "a")]] from rfl]
      exact List.mem_singleton.mpr rfl)
